import Mathlib

/-!
Shallow embedding of the RevTree subsystem (RevTree.cc) of the
couchbase-lite-core / CBForest revision-tree module, together with proofs
about the claims of its specification.

Byte strings (C slices over the revision IDs, bodies and the encoded blob)
are modelled as List Nat with every element a byte value. Machine integers
are modelled as Nat with explicit truncation (percent 2 to the width) at the
points where the C code casts. Out-of-bounds array or vector accesses and
reads of uninitialized memory, which are undefined behaviour in the C code,
are modelled by returning none (Option) or a dedicated stuck result.

Code that the claims depend on but that is not part of the extracted
sources (the varint codec from varint.h, the slice comparison from
slice.cc, and the RevNode accessors and constants from RevTree.h) is
modelled from the specification; each such definition carries a doc
comment saying so.
-/

/-- Modelled from the spec: kNoParent, the sentinel value 0xFFFF indicating
no parent link (RevTree.h is not among the extracted sources). -/
def kNoParent : Nat := 65535

/-- Modelled from the spec: the persistent public flag bits of a revision
node, Leaf and Deleted, plus the in-memory-only New flag (RevTree.h is not
among the extracted sources; the spec gives Leaf = 0x01, Deleted = 0x02,
and New as transient). -/
structure RevFlags where
  leaf : Bool
  deleted : Bool
  isNew : Bool
deriving DecidableEq, Repr

/-- One revision node of the in-memory tree, mirroring struct RevNode:
revID and data are byte slices, parentIndex is a 16-bit index or kNoParent,
sequence and oldBodyOffset are unsigned integers. -/
structure RevNode where
  revID : List Nat
  parentIndex : Nat
  flags : RevFlags
  sequence : Nat
  data : List Nat
  oldBodyOffset : Nat
deriving DecidableEq, Repr

/-- The revision tree, mirroring class RevTree: the node vector plus the
bodyOffset fallback and the sorted and changed flags. The arena of owned
byte buffers is irrelevant to values and is not modelled. -/
structure RevTree where
  nodes : List RevNode
  bodyOffset : Nat
  sorted : Bool
  changed : Bool
deriving DecidableEq, Repr

/-- Modelled from the spec: RevNode.isActive, a leaf that is not deleted
(RevTree.h is not among the extracted sources; the spec defines active as
leaf and non-deleted). -/
def isActive (n : RevNode) : Bool :=
  n.flags.leaf && !n.flags.deleted

/-- The ctype isdigit test on a byte value, ASCII digits 0x30 to 0x39. -/
def isDigitByte (b : Nat) : Bool :=
  decide (48 ≤ b ∧ b ≤ 57)

/-- parseDigits from RevTree.cc: parses the bytes as an ASCII decimal
number, returning 0 as soon as a non-digit is found. -/
def parseDigits : Nat → List Nat → Nat
  | acc, [] => acc
  | acc, c :: cs => if isDigitByte c then parseDigits (10 * acc + (c - 48)) cs else 0

/-- RevIDParse from RevTree.cc: locate the first dash; fail when it is
absent, at position 0, past position 8 or the last byte; the prefix must
parse to a non-zero decimal generation; the digest is everything after the
dash. -/
def RevIDParse (rev : List Nat) : Option (Nat × List Nat) :=
  match rev.findIdx? (fun b => b == 45) with
  | none => none
  | some d =>
    if d = 0 then none
    else if d > 8 ∨ d ≥ rev.length - 1 then none
    else
      let gen := parseDigits 0 (rev.take d)
      if gen = 0 then none
      else some (gen, rev.drop (d + 1))

/-- RevIDParseCompacted from RevTree.cc: inspect the first byte; a digit
delegates to RevIDParse, otherwise the generation is the byte itself,
minus 10 when it lies above the digit range, and the digest is the tail.
Reading the first byte of an empty slice is out of bounds in the C code
and is modelled as none. -/
def RevIDParseCompacted (rev : List Nat) : Option (Nat × List Nat) :=
  match rev with
  | [] => none
  | b :: rest =>
    if isDigitByte b then RevIDParse rev
    else some ((if b > 57 then b - 10 else b), rest)

/-- Modelled from the spec: slice comparison (slice.cc is not among the
extracted sources; the spec says IDs falling back compare
byte-lexicographically and that compare returns a sign in -1, 0, +1). -/
def compareBytes : List Nat → List Nat → Int
  | [], [] => 0
  | [], _ :: _ => -1
  | _ :: _, [] => 1
  | a :: as, b :: bs =>
    if a < b then -1
    else if b < a then 1
    else compareBytes as bs

/-- compareRevIDs from RevTree.cc: parse both IDs; if either fails to
parse, compare the whole IDs byte-lexicographically; otherwise compare
generations numerically and break ties on the digests. -/
def compareRevIDs (rev1 rev2 : List Nat) : Int :=
  match RevIDParse rev1, RevIDParse rev2 with
  | some (g1, d1), some (g2, d2) =>
    if g1 > g2 then 1
    else if g1 < g2 then -1
    else compareBytes d1 d2
  | _, _ => compareBytes rev1 rev2

/-- Conversion of a C boolean to an int, used by the sort comparator. -/
def boolToInt (b : Bool) : Int :=
  if b then 1 else 0

/-- RevNode.compare from RevTree.cc: leaves first, then non-deleted first,
then higher revision ID first. -/
def RevNode.compare (a b : RevNode) : Int :=
  let d1 : Int := boolToInt b.flags.leaf - boolToInt a.flags.leaf
  if d1 ≠ 0 then d1
  else
    let d2 : Int := boolToInt a.flags.deleted - boolToInt b.flags.deleted
    if d2 ≠ 0 then d2
    else compareRevIDs b.revID a.revID

/-- RevTree.get(slice) from RevTree.cc: linear scan for the first node
whose revID equals the given bytes, returning its index (the C code
returns a pointer into the vector). -/
def RevTree.get (t : RevTree) (revID : List Nat) : Option Nat :=
  t.nodes.findIdx? (fun n => n.revID == revID)

/-- hasConflict scan helper: the linear fallback of RevTree.hasConflict,
counting active nodes and stopping as soon as a second one is found. -/
def scanConflict : Nat → List RevNode → Bool
  | _, [] => false
  | nActive, n :: ns =>
    if isActive n then
      if nActive + 1 > 1 then true else scanConflict (nActive + 1) ns
    else scanConflict nActive ns

/-- RevTree.hasConflict from RevTree.cc: false for fewer than two nodes;
with the sorted flag set, asks whether the node at index 1 is active;
otherwise scans for two active nodes. -/
def hasConflict (t : RevTree) : Bool :=
  match t.nodes with
  | n0 :: n1 :: rest =>
    if t.sorted then isActive n1
    else scanConflict 0 (n0 :: n1 :: rest)
  | _ => false

/-- RevTree private helper (RevTree.cc, RevTree::_insert): append a new
leaf node with the New flag, clear the Leaf flag of the parent when one is
given, record the parent index with the uint16 cast of the C code, set
changed, and clear sorted once the vector holds more than one node. A
parent pointer outside the vector (undefined behaviour in C, which writes
through it) is modelled as none. Returns the new node index. -/
def RevTree.insertNode (t : RevTree) (revID data : List Nat)
    (parent : Option Nat) (deleted : Bool) : Option (RevTree × Nat) :=
  match parent with
  | some pidx =>
    match t.nodes[pidx]? with
    | none => none
    | some pnode =>
      let nodes1 := t.nodes.set pidx {pnode with flags := {pnode.flags with leaf := false}}
      let newNode : RevNode := ⟨revID, pidx % 65536, ⟨true, deleted, true⟩, 0, data, 0⟩
      let nodes2 := nodes1 ++ [newNode]
      some ({t with nodes := nodes2, changed := true,
                    sorted := if nodes2.length > 1 then false else t.sorted},
            nodes2.length - 1)
  | none =>
    let newNode : RevNode := ⟨revID, kNoParent, ⟨true, deleted, true⟩, 0, data, 0⟩
    let nodes2 := t.nodes ++ [newNode]
    some ({t with nodes := nodes2, changed := true,
                  sorted := if nodes2.length > 1 then false else t.sorted},
          nodes2.length - 1)

/-- RevTree.cc, RevTree::insert(revID, data, deleted, parent, allowConflict),
the overload taking a parent node: validate the compacted revision ID,
check the conflict rules and the generation arithmetic, then append via
insertNode. The debug-only assert that revID is not already present is
compiled out in release builds and is not modelled. -/
def RevTree.insertWithParent (t : RevTree) (revID data : List Nat)
    (deleted : Bool) (parent : Option Nat) (allowConflict : Bool) :
    Option (RevTree × Nat) :=
  match RevIDParseCompacted revID with
  | none => none
  | some (newGen, _) =>
    match parent with
    | some pidx =>
      match t.nodes[pidx]? with
      | none => none
      | some pnode =>
        if !allowConflict && !pnode.flags.leaf then none
        else
          match RevIDParseCompacted pnode.revID with
          | none => none
          | some (parentGen, _) =>
            if newGen ≠ parentGen + 1 then none
            else t.insertNode revID data (some pidx) deleted
    | none =>
      if !allowConflict && t.nodes.length > 0 then none
      else if newGen ≠ 0 + 1 then none
      else t.insertNode revID data none deleted

/-- RevTree.cc, RevTree::insert(revID, body, deleted, parentRevID,
allowConflict), the overload taking a parent revision ID: reject when the
revID is already present, look the parent up by ID (failing when a
non-null parent ID is absent), then delegate to the node overload. The
none result models the C NULL return, with the tree left unchanged. -/
def RevTree.insertWithParentID (t : RevTree) (revID data : List Nat)
    (deleted : Bool) (parentRevID : Option (List Nat)) (allowConflict : Bool) :
    Option (RevTree × Nat) :=
  if (t.get revID).isSome then none
  else
    match parentRevID with
    | some pid =>
      match t.get pid with
      | none => none
      | some pidx => t.insertWithParent revID data deleted (some pidx) allowConflict
    | none => t.insertWithParent revID data deleted none allowConflict

/-- The validation scan of RevTree::insertHistory: walk the newest-first
history, checking each compacted ID parses and that generations decrease
by exactly one, until an entry already in the tree is found. The none
result models the early return of -1; some i is the loop exit index. -/
def insertHistoryScan (t : RevTree) : Nat → Nat → List (List Nat) → Option Nat
  | i, _, [] => some i
  | i, lastGen, h :: rest =>
    match RevIDParseCompacted h with
    | none => none
    | some (gen, _) =>
      if lastGen > 0 ∧ gen ≠ lastGen - 1 then none
      else if (t.get h).isSome then some i
      else insertHistoryScan t (i + 1) gen rest

/-- The insertion loop of RevTree::insertHistory: while (--i >= 0) insert
history[i] with get(parentIndex) as parent, where parentIndex is 
initialized to the history index of the common ancestor and thereafter to
the index of the node just inserted. The first argument counts the
remaining iterations (the entry at index one below it is inserted next). -/
def insertHistoryLoop (history : List (List Nat)) (data : List Nat)
    (deleted : Bool) : Nat → Nat → RevTree → Option RevTree
  | 0, _, t => some t
  | i + 1, parentIndex, t =>
    match history[i]? with
    | none => none
    | some rid =>
      match t.insertNode rid (if i = 0 then data else [])
              (some parentIndex) (i == 0 && deleted) with
      | none => none
      | some (t', newIdx) => insertHistoryLoop history data deleted i newIdx t'

/-- RevTree.cc, RevTree::insertHistory: validate and find the common
ancestor, then insert the strictly newer entries oldest first. Returns
some (-1, unchanged tree) on validation failure, mirroring the C return
of -1; none models undefined behaviour (the insertion loop dereferencing
a node pointer outside the vector). -/
def RevTree.insertHistory (t : RevTree) (history : List (List Nat))
    (data : List Nat) (deleted : Bool) : Option (Int × RevTree) :=
  match insertHistoryScan t 0 0 history with
  | none => some (-1, t)
  | some i =>
    if i > 0 then
      match insertHistoryLoop history data deleted i i t with
      | none => none
      | some t' => some ((i : Int), t')
    else some ((i : Int), t)

/-- The remap table of RevTree::compact: surviving positions (revID still
non-empty) are numbered consecutively, dropped positions map to
kNoParent. -/
def buildCompactMap : Nat → List RevNode → List Nat
  | _, [] => []
  | j, n :: ns =>
    if n.revID.length > 0 then j :: buildCompactMap (j + 1) ns
    else kNoParent :: buildCompactMap j ns

/-- The sliding pass of RevTree::compact: keep the survivors in order,
translating each parentIndex through the remap table. The C code indexes
the table with the raw parentIndex without checking for kNoParent; an
index outside the table is an out-of-bounds read and is modelled as
none. -/
def compactSlide (m : List Nat) : List RevNode → Option (List RevNode)
  | [] => some []
  | n :: ns =>
    if n.revID.length > 0 then
      match m[n.parentIndex]? with
      | none => none
      | some p =>
        match compactSlide m ns with
        | none => none
        | some rest => some ({n with parentIndex := p} :: rest)
    else compactSlide m ns

/-- RevTree.cc, RevTree::compact: drop nodes whose revID was cleared,
renumber parent indexes through the remap table, and set changed. -/
def RevTree.compact (t : RevTree) : Option RevTree :=
  let m := buildCompactMap 0 t.nodes
  match compactSlide m t.nodes with
  | none => none
  | some survivors => some {t with nodes := survivors, changed := true}

/-- One pass of the purge loop of RevTree::purge, processing the entries
in order: an entry found as a leaf is marked (revID cleared), consumed
(the entry becomes the empty slice, as the C code nulls it), and its
parent, if any, is promoted to Leaf; an entry found as a non-leaf sets
the foundNonLeaf flag. Returns the updated nodes, the updated entries,
the number purged in this pass, and the madeProgress and foundNonLeaf
flags. -/
def purgePass : List RevNode → List (List Nat) →
    Option (List RevNode × List (List Nat) × Nat × Bool × Bool)
  | nodes, [] => some (nodes, [], 0, false, false)
  | nodes, e :: es =>
    match nodes.findIdx? (fun n => n.revID == e) with
    | none =>
      match purgePass nodes es with
      | none => none
      | some (nodes', es', d, mp, fnl) => some (nodes', e :: es', d, mp, fnl)
    | some idx =>
      match nodes[idx]? with
      | none => none
      | some node =>
        if node.flags.leaf then
          let nodes1 := nodes.set idx {node with revID := []}
          let step2 : Option (List RevNode) :=
            if node.parentIndex ≠ kNoParent then
              match nodes1[node.parentIndex]? with
              | none => none
              | some p => some (nodes1.set node.parentIndex
                                  {p with flags := {p.flags with leaf := true}})
            else some nodes1
          match step2 with
          | none => none
          | some nodes2 =>
            match purgePass nodes2 es with
            | none => none
            | some (nodes', es', d, _, fnl) => some (nodes', [] :: es', d + 1, true, fnl)
        else
          match purgePass nodes es with
          | none => none
          | some (nodes', es', d, mp, _) => some (nodes', e :: es', d, mp, true)

/-- The do-while loop of RevTree::purge: repeat passes while a pass both
made progress and saw a non-leaf. The C loop can fail to terminate (a
consumed entry keeps matching a marked node, re-purging it each pass);
fuel exhaustion models that divergence as none. -/
def purgeLoop : Nat → List RevNode → List (List Nat) → Nat →
    Option (List RevNode × Nat)
  | 0, _, _, _ => none
  | fuel + 1, nodes, entries, acc =>
    match purgePass nodes entries with
    | none => none
    | some (nodes', entries', d, mp, fnl) =>
      if mp && fnl then purgeLoop fuel nodes' entries' (acc + d)
      else some (nodes', acc + d)

/-- RevTree.cc, RevTree::purge: run the purge passes, then compact when
anything was purged. -/
def RevTree.purge (t : RevTree) (revIDs : List (List Nat)) :
    Option (Nat × RevTree) :=
  match purgeLoop (revIDs.length + t.nodes.length + 2) t.nodes revIDs 0 with
  | none => none
  | some (nodes', numPurged) =>
    let t1 := {t with nodes := nodes'}
    if numPurged > 0 then
      match t1.compact with
      | none => none
      | some t2 => some (numPurged, t2)
    else some (numPurged, t1)

/-- The ancestry walk of RevTree::prune, starting at a leaf: ancestors
beyond maxDepth get their revID cleared and are counted (a node already
cleared is counted again, as in the C code). Fuel bounds the walk; a walk
longer than the fuel means a parent cycle, on which the C loop would not
terminate. A parentIndex outside the vector is an out-of-bounds access,
modelled as none. -/
def pruneWalk (maxDepth : Nat) : Nat → Nat → Nat → List RevNode → Nat →
    Option (List RevNode × Nat)
  | 0, _, _, _, _ => none
  | fuel + 1, depth, idx, nodes, acc =>
    match nodes[idx]? with
    | none => none
    | some node =>
      let depth' := depth + 1
      let marked :=
        if depth' > maxDepth then (nodes.set idx {node with revID := []}, acc + 1)
        else (nodes, acc)
      if node.parentIndex = kNoParent then some marked
      else pruneWalk maxDepth fuel depth' node.parentIndex marked.1 marked.2

/-- The scan of RevTree::prune over all node positions: walk the ancestry
of every leaf; when the tree is sorted, stop at the first non-leaf. -/
def pruneScan (maxDepth : Nat) (srt : Bool) : Nat → Nat → List RevNode → Nat →
    Option (List RevNode × Nat)
  | 0, _, nodes, acc => some (nodes, acc)
  | rem + 1, i, nodes, acc =>
    match nodes[i]? with
    | none => none
    | some node =>
      if node.flags.leaf then
        match pruneWalk maxDepth (nodes.length + 1) 0 i nodes acc with
        | none => none
        | some (nodes1, acc1) => pruneScan maxDepth srt rem (i + 1) nodes1 acc1
      else if srt then some (nodes, acc)
      else pruneScan maxDepth srt rem (i + 1) nodes acc

/-- RevTree.cc, RevTree::prune: return 0 and leave the tree untouched when
maxDepth is 0 or the node count does not exceed maxDepth; otherwise mark
over-depth ancestors of every leaf and compact when anything was
marked. -/
def RevTree.prune (t : RevTree) (maxDepth : Nat) : Option (Nat × RevTree) :=
  if maxDepth = 0 ∨ t.nodes.length ≤ maxDepth then some (0, t)
  else
    match pruneScan maxDepth t.sorted t.nodes.length 0 t.nodes 0 with
    | none => none
    | some (nodes1, numPruned) =>
      let t1 := {t with nodes := nodes1}
      if numPruned > 0 then
        match t1.compact with
        | none => none
        | some t2 => some (numPruned, t2)
      else some (numPruned, t1)

/-- Insertion step of the sort used to model std::sort: place x before the
first element it strictly precedes under RevNode.compare. -/
def insertSorted (x : RevNode) : List RevNode → List RevNode
  | [] => [x]
  | y :: ys => if x.compare y < 0 then x :: y :: ys else y :: insertSorted x ys

/-- Modelled from the spec: std::sort over the node vector, ordered by the
RevNode comparator (the spec sorts by compareForSort; operator< of
RevTree.h is not among the extracted sources). std::sort leaves the
relative order of equivalent elements unspecified; it is modelled by a
deterministic stable insertion sort, one of the permitted outcomes. -/
def sortNodes : List RevNode → List RevNode
  | [] => []
  | x :: xs => insertSorted x (sortNodes xs)

/-- Step 1 of RevTree::sort: stash each node position into its own
parentIndex field (with the uint16 cast of the loop variable). -/
def stashParents : Nat → List RevNode → List RevNode
  | _, [] => []
  | i, n :: ns => {n with parentIndex := i % 65536} :: stashParents (i + 1) ns

/-- Steps 3 and 4 of RevTree::sort for one node: read the stashed old
position, fetch the old parent from the sidecar, and remap a real parent
through the oldToNew table. The oldToNew table maps the stashed position
of a post-sort node to its new index; a lookup for a position never
stashed is an out-of-bounds read of the C table and is modelled as
none. -/
def fixupNode (oldParents : List Nat) (ns2 : List RevNode) (n : RevNode) :
    Option RevNode :=
  match oldParents[n.parentIndex]? with
  | none => none
  | some par =>
    if par ≠ kNoParent then
      match ns2.findIdx? (fun m => m.parentIndex == par) with
      | none => none
      | some i => some {n with parentIndex := i}
    else some {n with parentIndex := par}

/-- Apply a fallible function to every element, failing when any
application fails. -/
def mapOptionAll {A B : Type} (f : A -> Option B) : List A -> Option (List B)
  | [] => some []
  | x :: xs =>
    match f x, mapOptionAll f xs with
    | some y, some ys => some (y :: ys)
    | _, _ => none

/-- RevTree.cc, RevTree::sort, acting on the node list: stash positions,
sort, and rebuild the parent links through the oldToNew table. -/
def sortFix (ns : List RevNode) : Option (List RevNode) :=
  let oldParents := ns.map (fun n => n.parentIndex)
  let ns2 := sortNodes (stashParents 0 ns)
  mapOptionAll (fixupNode oldParents ns2) ns2

/-- Big-endian bytes of a 32-bit value, as written through htonl. -/
def write4BE (n : Nat) : List Nat :=
  [n / 16777216 % 256, n / 65536 % 256, n / 256 % 256, n % 256]

/-- Big-endian bytes of a 16-bit value, as written through htons. -/
def write2BE (n : Nat) : List Nat :=
  [n / 256 % 256, n % 256]

/-- Structurally recursive worker for putUVarInt; the fuel strictly
exceeds the value, which strictly dominates the number of 7-bit groups,
so the fallback first arm is never reached. -/
def putUVarIntAux : Nat → Nat → List Nat
  | 0, n => [n % 128]
  | fuel + 1, n =>
    if n < 128 then [n]
    else (n % 128 + 128) :: putUVarIntAux fuel (n / 128)

/-- Modelled from the spec: PutUVarInt from varint.h (not among the
extracted sources); unsigned LEB128, 7 data bits per byte, continuation
bit in the most significant bit, little-endian group order. -/
def putUVarInt (n : Nat) : List Nat :=
  putUVarIntAux (n + 1) n

/-- Modelled from the spec: SizeOfVarInt from varint.h, the encoded length
of an unsigned LEB128 value. -/
def sizeOfVarInt (n : Nat) : Nat := (putUVarInt n).length

/-- Modelled from the spec: GetUVarInt from varint.h; returns the number
of bytes consumed together with the decoded value. When no terminating
byte (high bit clear) lies within the buffer it consumes 0 bytes and
produces no value, leaving the destination untouched, as required by the
call sites in RevTree.cc (nodeFromRawNode pre-initializes oldBodyOffset to
0 and advances its cursor by the returned count unconditionally). -/
def getUVarInt : List Nat → Nat × Option Nat
  | [] => (0, none)
  | b :: rest =>
    if b < 128 then (1, some b)
    else
      match getUVarInt rest with
      | (c, some v) => (c + 1, some (b % 128 + 128 * v))
      | (_, none) => (0, none)

/-- sizeForRawNode from RevTree.cc: 8 header bytes (offsetof(RawRevNode,
revID)), the revID bytes, the sequence varint, then either the inline body
or, when absent but oldBodyOffset is positive, the offset varint. -/
def sizeForRawNode (n : RevNode) : Nat :=
  8 + n.revID.length + sizeOfVarInt n.sequence +
    (if n.data.length > 0 then n.data.length
     else if n.oldBodyOffset > 0 then sizeOfVarInt n.oldBodyOffset
     else 0)

/-- The flags byte written by RevTree::encode: the persistent bits (Leaf
0x01, Deleted 0x02) plus HasData 0x80 when an inline body is present, else
HasBodyOffset 0x40 when oldBodyOffset is positive. -/
def flagsByte (n : RevNode) : Nat :=
  (if n.flags.leaf then 1 else 0) + (if n.flags.deleted then 2 else 0) +
    (if n.data.length > 0 then 128
     else if n.oldBodyOffset > 0 then 64
     else 0)

/-- The trailing payload of an encoded raw node: the inline body when
present, else the oldBodyOffset varint (falling back to the tree
bodyOffset when the node field is 0, as the C conditional writes), else
nothing. -/
def nodePayload (bo : Nat) (n : RevNode) : List Nat :=
  if n.data.length > 0 then n.data
  else if n.oldBodyOffset > 0 then
    putUVarInt (if n.oldBodyOffset ≠ 0 then n.oldBodyOffset else bo)
  else []

/-- One encoded raw node, in the layout of struct RawRevNode: size (u32
big-endian), parentIndex (u16 big-endian, the uint16 field value),
flags byte, revIDLen byte (the uint8 cast), revID bytes, sequence varint,
payload. -/
def encNode (bo : Nat) (n : RevNode) : List Nat :=
  write4BE (sizeForRawNode n) ++ write2BE n.parentIndex ++
    [flagsByte n] ++ [n.revID.length % 256] ++ n.revID ++
    putUVarInt n.sequence ++ nodePayload bo n

/-- The body-pruning pass of RevTree::encode: a node with an inline body
that is neither a leaf nor newly inserted loses the body and takes the
tree bodyOffset as its deferred offset. -/
def pruneBodies (bo : Nat) (ns : List RevNode) : List RevNode :=
  ns.map (fun n =>
    if n.data.length > 0 && !(n.flags.leaf || n.flags.isNew) then
      {n with data := [], oldBodyOffset := bo}
    else n)

/-- RevTree.cc, RevTree::encode: sort (a no-op when the sorted flag is
set), prune bodies of stale internal nodes, write each raw node and the
4-byte zero terminator. none models the undefined behaviour of the sort
fixup on a tree with an out-of-range parent link. -/
def encodeTree (t : RevTree) : Option (List Nat) :=
  match (if t.sorted then some t.nodes else sortFix t.nodes) with
  | none => none
  | some ns0 =>
    let ns1 := pruneBodies t.bodyOffset ns0
    some ((ns1.map (encNode t.bodyOffset)).flatten ++ write4BE 0)

/-- Result of decoding a raw tree blob: a tree, the FileCorruption error,
or stuck, which models undefined behaviour (out-of-bounds reads while
walking, or the later read of a sequence field left uninitialized by an
unterminated varint). -/
inductive DecodeResult where
  | ok : RevTree → DecodeResult
  | corrupt : DecodeResult
  | stuck : DecodeResult
deriving DecidableEq, Repr

/-- nodeFromRawNode from RevTree.cc, applied to the bytes of one record
(as delimited by its size field): read parentIndex, flags and revIDLen
from the fixed header, slice the revID, decode the sequence varint from
the remainder, then the inline body or the oldBodyOffset varint according
to the flag bits. An unterminated sequence varint leaves dst->sequence
uninitialized in C and the caller then reads it, so it is modelled as
none; an unterminated oldBodyOffset varint silently leaves the
pre-initialized 0. Reads outside the record are modelled as none. -/
def parseRecord (rec : List Nat) : Option RevNode :=
  match rec with
  | _ :: _ :: _ :: _ :: p0 :: p1 :: fb :: rl :: rest =>
    if rl ≤ rest.length then
      let revID := rest.take rl
      let region := rest.drop rl
      match getUVarInt region with
      | (c, some sq) =>
        let rest2 := region.drop c
        if fb.testBit 7 then
          some ⟨revID, p0 * 256 + p1, ⟨fb.testBit 0, fb.testBit 1, false⟩, sq, rest2, 0⟩
        else if fb.testBit 6 then
          some ⟨revID, p0 * 256 + p1, ⟨fb.testBit 0, fb.testBit 1, false⟩, sq, [],
                (getUVarInt rest2).2.getD 0⟩
        else
          some ⟨revID, p0 * 256 + p1, ⟨fb.testBit 0, fb.testBit 1, false⟩, sq, [], 0⟩
      | (_, none) => none
    else none
  | _ => none

/-- Decode every record of the walk in order, failing when any record
fails. -/
def parseRecords : List (List Nat) → Option (List RevNode)
  | [] => some []
  | r :: rs =>
    match parseRecord r, parseRecords rs with
    | some n, some ns => some (n :: ns)
    | _, _ => none

/-- The record walk shared by countRawNodes and the decode loop of
RevTree.cc: read a 32-bit size; zero terminates the walk, returning the
records seen and the remaining suffix (which starts with the zero size
just read); otherwise slice off one record of that many bytes and
continue. Reading a size with fewer than 4 bytes available is
out-of-bounds, modelled as none; fuel exhaustion cannot occur for walks
whose cursor stays inside the input, since each record is at least one
byte. -/
def rawWalk : Nat → List Nat → Option (List (List Nat) × List Nat)
  | 0, _ => none
  | fuel + 1, b =>
    match b with
    | c0 :: c1 :: c2 :: c3 :: _ =>
      let s := ((c0 * 256 + c1) * 256 + c2) * 256 + c3
      if s = 0 then some ([], b)
      else
        match rawWalk fuel (b.drop s) with
        | none => none
        | some (recs, suffix) => some (b.take s :: recs, suffix)
    | _ => none

/-- Substitution of the default sequence performed by the decode loop for
records whose stored sequence is 0. -/
def substSeq (seq : Nat) (n : RevNode) : RevNode :=
  if n.sequence = 0 then {n with sequence := seq} else n

/-- RevTree.cc, RevTree::decode (and the decoding constructor): count the
records, throwing FileCorruption when the count exceeds 65535; decode each
record, substituting the caller sequence for stored zeros; throw
FileCorruption unless the walk ended exactly 4 bytes before the end of the
input. The docOffset argument is accepted and, as in the C code, never
used; the resulting tree has bodyOffset 0, sorted set and changed
clear, as the constructor initializes them. -/
def decodeTree (b : List Nat) (seq : Nat) (_docOffset : Nat) : DecodeResult :=
  match rawWalk (b.length + 1) b with
  | none => DecodeResult.stuck
  | some (recs, suffix) =>
    if recs.length > 65535 then DecodeResult.corrupt
    else
      match parseRecords recs with
      | none => DecodeResult.stuck
      | some ns =>
        if suffix.length ≠ 4 then DecodeResult.corrupt
        else DecodeResult.ok ⟨ns.map (substSeq seq), 0, true, false⟩

/-- Decode a blob with default sequence 0 and re-encode the resulting
tree; none when decoding fails or re-encoding is undefined. -/
def reencode (b : List Nat) : Option (List Nat) :=
  match decodeTree b 0 0 with
  | DecodeResult.ok t2 => encodeTree t2
  | _ => none

/-- Byte string of the textual revision ID 1-aa. -/
def rev1aa : List Nat := [49, 45, 97, 97]

/-- Byte string of the textual revision ID 2-bb. -/
def rev2bb : List Nat := [50, 45, 98, 98]

/-- Byte string of the textual revision ID 2-cc. -/
def rev2cc : List Nat := [50, 45, 99, 99]

/-- Byte string of the textual revision ID 3-cc. -/
def rev3cc : List Nat := [51, 45, 99, 99]

/-- Byte string of the textual revision ID 4-dd. -/
def rev4dd : List Nat := [52, 45, 100, 100]

/-- A tree containing exactly the saved revision 1-aa as its leaf. -/
def treeOne : RevTree :=
  ⟨[⟨rev1aa, kNoParent, ⟨true, false, false⟩, 1, [], 0⟩], 0, true, false⟩

/-- A two-node tree about to be compacted: the root 1-aa survives with
parentIndex kNoParent, and its child was marked for removal (revID
cleared). Both parent indexes satisfy the tree invariant. -/
def compactCrashTree : RevTree :=
  ⟨[⟨rev1aa, kNoParent, ⟨false, false, false⟩, 1, [], 0⟩,
    ⟨[], 0, ⟨true, false, false⟩, 2, [], 0⟩], 0, true, false⟩

/-- A tree with root 1-aa (not a leaf) and two leaf children 2-bb and
2-cc, used for purging one of two sibling leaves. -/
def purgeSiblingTree : RevTree :=
  ⟨[⟨rev1aa, kNoParent, ⟨false, false, false⟩, 1, [], 0⟩,
    ⟨rev2bb, 0, ⟨true, false, false⟩, 2, [], 0⟩,
    ⟨rev2cc, 0, ⟨true, false, false⟩, 3, [], 0⟩], 0, false, false⟩

/-- A tree built by two inserts in one session: 1-aa with body and its
child 2-bb with body. The parent 1-aa is no longer a leaf but still
carries the New flag and its inline body, exactly as RevTree::encode
leaves it. -/
def newChainTree : RevTree :=
  ⟨[⟨rev1aa, kNoParent, ⟨false, false, true⟩, 0, [88], 0⟩,
    ⟨rev2bb, 0, ⟨true, false, true⟩, 0, [89], 0⟩], 0, false, true⟩

/-- A saved single-leaf tree carrying an inline body, in canonical shape. -/
def leafBodyTree : RevTree :=
  ⟨[⟨rev1aa, kNoParent, ⟨true, false, false⟩, 1, [66], 0⟩], 5, true, false⟩

/-- An encoded blob holding one record whose oldBodyOffset varint is a
single continuation byte (0x80) and therefore never terminates: size 14,
parentIndex kNoParent, flags Leaf plus HasBodyOffset (0x41), revID 1-aa,
sequence varint 1, then the byte 0x80, then the 4-byte zero
terminator. -/
def unterminatedVarintBlob : List Nat :=
  [0, 0, 0, 14, 255, 255, 65, 4, 49, 45, 97, 97, 1, 128, 0, 0, 0, 0]

/-- A two-node tree in sorted order: the active leaf 2-bb first, its
non-leaf parent 1-aa second. -/
def sortedPairTree : RevTree :=
  ⟨[⟨rev2bb, 1, ⟨true, false, false⟩, 2, [], 0⟩,
    ⟨rev1aa, kNoParent, ⟨false, false, false⟩, 1, [], 0⟩], 0, true, false⟩

/-- The node value produced by decoding an encoded node: the parentIndex
truncated to 16 bits, only the persistent flag bits kept (New cleared),
and the deferred offset kept only when there is no inline body. -/
def cleanNode (n : RevNode) : RevNode :=
  ⟨n.revID, n.parentIndex % 65536, ⟨n.flags.leaf, n.flags.deleted, false⟩,
   n.sequence, n.data, if n.data.length > 0 then 0 else n.oldBodyOffset⟩

/-- The concatenated encoded records of a node list, without the
terminator. -/
def encList (bo : Nat) (ns : List RevNode) : List Nat :=
  (ns.map (encNode bo)).flatten

/-!
Theorems. Each claim of the specification is settled by one theorem (and,
for claims refuted on the code, one counterexample theorem), preceded by
helper lemmas where needed.
-/

/-- Claim C1: on a tree containing exactly the revision 1-aa, the call
insertHistory([4-dd, 3-cc, 2-bb, 1-aa], body, false) was claimed to
return 3 and link 2-bb, 3-cc, 4-dd above the existing 1-aa node. The
code instead seeds the insertion loop with the history index 3 of the
common ancestor and passes it to get(unsigned), indexing the one-element
node vector out of bounds (the commonAncestor pointer it computed is
never used); the embedding yields none (undefined behaviour) instead of
the claimed result. -/
theorem C1_insertHistory_common_ancestor_crash :
    RevTree.insertHistory treeOne [rev4dd, rev3cc, rev2bb, rev1aa] [90] false = none := by
  decide

/-- Claim C2: compact was claimed to re-establish the parent-index
invariant, a survivor with parentIndex kNoParent keeping kNoParent with
the table lookup never reading outside the remap table. The input tree
here satisfies the invariant (every parentIndex is kNoParent or in
range), yet compact translates the surviving root through
map[kNoParent], an out-of-bounds read of the 2-entry table (the C code
never checks for the sentinel before indexing); the embedding yields
none. -/
theorem C2_compact_root_out_of_bounds :
    (∀ n ∈ compactCrashTree.nodes,
        n.parentIndex = kNoParent ∨ n.parentIndex < compactCrashTree.nodes.length) ∧
    RevTree.compact compactCrashTree = none := by
  decide

/-- Claim C3: purging one leaf whose parent still has another unpurged
child was claimed not to leave that parent flagged Leaf. Purging 2-bb
from the tree 1-aa with children 2-bb and 2-cc runs one pass whose
result, shown literally, has the parent 1-aa flagged Leaf while it is
still the parentIndex of the surviving child 2-cc; the subsequent
compact then reads the remap table out of bounds at kNoParent, so the
full purge call yields none. -/
theorem C3_purge_promotes_parent_with_child :
    purgeLoop 6 purgeSiblingTree.nodes [rev2bb] 0 =
      some ([⟨rev1aa, kNoParent, ⟨true, false, false⟩, 1, [], 0⟩,
             ⟨[], 0, ⟨true, false, false⟩, 2, [], 0⟩,
             ⟨rev2cc, 0, ⟨true, false, false⟩, 3, [], 0⟩], 1) ∧
    RevTree.purge purgeSiblingTree [rev2bb] = none := by
  decide

/-- Claim C4 counterexample: the blob encoded from a tree whose new,
no-longer-leaf node 1-aa still carries its inline body is produced by
encode, yet decoding it and re-encoding does not reproduce it: the
decoded node has lost the transient New flag, so the second encode
prunes its body. -/
theorem C4_roundtrip_counterexample :
    (encodeTree newChainTree).bind reencode ≠ encodeTree newChainTree ∧
    (encodeTree newChainTree).isSome = true := by
  decide

/-- Claim C5 counterexample: a record whose oldBodyOffset varint is a
lone continuation byte never terminates, yet decode returns a tree
rather than failing: GetUVarInt consumes nothing and the pre-initialized
offset 0 is kept. -/
theorem C5_unterminated_varint_decodes :
    decodeTree unterminatedVarintBlob 0 0 =
      DecodeResult.ok ⟨[⟨rev1aa, kNoParent, ⟨true, false, false⟩, 1, [], 0⟩],
                       0, true, false⟩ := by
  decide

/-- Claim C6 counterexample: parseCompacted was claimed never to fail on
non-empty input, but the one-byte input 1 (an ASCII digit) delegates to
the full textual parse, which fails for lack of a dash. -/
theorem C6_digit_input_fails :
    RevIDParseCompacted [49] = none := by
  decide

/-- Claim C6 as amended: on non-empty input, a leading ASCII digit makes
parseCompacted return exactly the result of the full textual parse
(which may fail); any other leading byte b always succeeds with
generation b, lowered by 10 above the digit range, and the tail as
suffix. -/
theorem C6_parseCompacted_behavior (b : Nat) (rest : List Nat) :
    (isDigitByte b = true → RevIDParseCompacted (b :: rest) = RevIDParse (b :: rest)) ∧
    (isDigitByte b = false → RevIDParseCompacted (b :: rest) =
      some ((if b > 57 then b - 10 else b), rest)) := by
  constructor <;> intro h <;> simp [RevIDParseCompacted, h]

/-- Witness for C6: the theorem applied to the digit input 1-a and to the
non-digit input with leading byte 97. -/
theorem C6_parseCompacted_behavior_witness :
    RevIDParseCompacted [49, 45, 97] = RevIDParse [49, 45, 97] ∧
    RevIDParseCompacted [97, 98] = some (87, [98]) := by
  refine ⟨(C6_parseCompacted_behavior 49 [45, 97]).1 (by decide), ?_⟩
  have h := (C6_parseCompacted_behavior 97 [98]).2 (by decide)
  simpa using h

/-- Claim C7 counterexample: the parent-node overload of insert performs
no duplicate check in release builds (only a debug assertion); inserting
1-aa into a tree already holding 1-aa succeeds and appends a second node
with the same revision ID. -/
theorem C7_node_overload_inserts_duplicate :
    treeOne.insertWithParent rev1aa [66] false none true =
      some (⟨[⟨rev1aa, kNoParent, ⟨true, false, false⟩, 1, [], 0⟩,
              ⟨rev1aa, kNoParent, ⟨true, false, true⟩, 0, [66], 0⟩],
             0, false, true⟩, 1) := by
  decide

/-- Claim C7 as amended: the overload taking a parent revision ID rejects
an already-present newID, returning null with the tree unchanged (the
none result of the embedding); the parent-node overload checks
duplicates only via a debug assertion. -/
theorem C7_revid_overload_rejects_duplicate (t : RevTree) (revID body : List Nat)
    (deleted : Bool) (parentRevID : Option (List Nat)) (allowConflict : Bool)
    (h : (t.get revID).isSome = true) :
    t.insertWithParentID revID body deleted parentRevID allowConflict = none := by
  simp [RevTree.insertWithParentID, h]

/-- Witness for C7: the rejecting overload applied to a duplicate 1-aa
insertion. -/
theorem C7_revid_overload_rejects_duplicate_witness :
    treeOne.insertWithParentID rev1aa [66] false none true = none :=
  C7_revid_overload_rejects_duplicate treeOne rev1aa [66] false none true (by decide)

/-- Claim C9 counterexample: the order induced by compareRevIDs is not
transitive. With a = 9-a and b = 10-b (both parse; generations order
them), and c = 5 (fails to parse; compared byte-lexicographically),
a precedes b and b precedes c, yet a follows c. -/
theorem C9_not_transitive :
    compareRevIDs [57, 45, 97] [49, 48, 45, 98] = -1 ∧
    compareRevIDs [49, 48, 45, 98] [53] = -1 ∧
    compareRevIDs [57, 45, 97] [53] = 1 := by
  decide

/-- Claim C10: prune(maxDepth) returns 0 and leaves the tree completely
unchanged (nodes, flags and the changed flag included) whenever maxDepth
is 0 or the node count is at most maxDepth. -/
theorem C10_prune_noop (t : RevTree) (maxDepth : Nat)
    (h : maxDepth = 0 ∨ t.nodes.length ≤ maxDepth) :
    RevTree.prune t maxDepth = some (0, t) := by
  unfold RevTree.prune
  rw [if_pos h]

/-- Witness for C10: pruning a three-node tree to depth 3 is a no-op, and
so is pruning to depth 0. -/
theorem C10_prune_noop_witness :
    RevTree.prune purgeSiblingTree 3 = some (0, purgeSiblingTree) ∧
    RevTree.prune purgeSiblingTree 0 = some (0, purgeSiblingTree) :=
  ⟨C10_prune_noop purgeSiblingTree 3 (by decide),
   C10_prune_noop purgeSiblingTree 0 (by decide)⟩

/-- Claim C5 as amended: for inputs whose record walk succeeds and whose
records all decode, decode throws FileCorruption exactly when the record
count exceeds 65535 or the walk does not end exactly 4 bytes before the
end of the input; an unterminated varint is never a FileCorruption error
(an unterminated oldBodyOffset varint is accepted silently with offset 0,
and an unterminated sequence varint leads to a read of uninitialized
memory, not to FileCorruption). -/
theorem C5_corrupt_iff (b : List Nat) (seq doc : Nat) (recs : List (List Nat))
    (suffix : List Nat) (ns : List RevNode)
    (hwalk : rawWalk (b.length + 1) b = some (recs, suffix))
    (hparse : parseRecords recs = some ns) :
    decodeTree b seq doc = DecodeResult.corrupt ↔
      (recs.length > 65535 ∨ suffix.length ≠ 4) := by
  unfold decodeTree
  rw [hwalk]
  by_cases h1 : recs.length > 65535
  · simp [h1]
  · by_cases h2 : suffix.length = 4 <;> simp [h1, h2, hparse]

/-- Witness for C5: a blob whose walk terminates immediately but leaves a
5-byte suffix is corrupt by the bad-sentinel arm. -/
theorem C5_corrupt_iff_witness :
    decodeTree [0, 0, 0, 0, 9] 0 0 = DecodeResult.corrupt :=
  (C5_corrupt_iff [0, 0, 0, 0, 9] 0 0 [] [0, 0, 0, 0, 9] []
    (by decide) (by decide)).mpr (by decide)

/-- An inactive node compares strictly after an active node under the
sort comparator, whatever their revision IDs. -/
theorem compare_inactive_active {a b : RevNode} (ha : isActive a = true)
    (hb : isActive b = false) : RevNode.compare b a = 1 := by
  simp only [isActive, Bool.and_eq_true, Bool.not_eq_true'] at ha
  unfold RevNode.compare
  cases hleaf : b.flags.leaf with
  | false => simp [boolToInt, ha.1, ha.2, hleaf]
  | true =>
    have hdel : b.flags.deleted = true := by
      simp only [isActive, hleaf, Bool.true_and] at hb
      simpa using hb
    simp [boolToInt, ha.1, ha.2, hleaf, hdel]

/-- Characterization of the conflict scan: starting from a running count
k, it reports a conflict exactly when at least one more active node
exists and the total reaches two. -/
theorem scanConflict_iff (ns : List RevNode) : ∀ k : Nat,
    (scanConflict k ns = true ↔
      1 ≤ ns.countP isActive ∧ 2 ≤ k + ns.countP isActive) := by
  induction ns with
  | nil => intro k; simp [scanConflict]
  | cons n ns ih =>
    intro k
    by_cases h : isActive n = true
    · have hc : (n :: ns).countP isActive = ns.countP isActive + 1 := by
        simp [List.countP_cons, h]
      by_cases hk : k + 1 > 1
      · have hs : scanConflict k (n :: ns) = true := by simp [scanConflict, h, hk]
        rw [hs, hc]
        constructor
        · intro _; omega
        · intro _; rfl
      · have hs : scanConflict k (n :: ns) = scanConflict (k + 1) ns := by
          simp [scanConflict, h, hk]
        rw [hs, hc, ih (k + 1)]
        omega
    · have hc : (n :: ns).countP isActive = ns.countP isActive := by
        simp [List.countP_cons, h]
      have hs : scanConflict k (n :: ns) = scanConflict k ns := by
        simp [scanConflict, h]
      rw [hs, hc]
      exact ih k

/-- Claim C8: on a tree whose node list is sorted by the comparator, the
sorted fast path of hasConflict and the linear scanning fallback agree. -/
theorem C8_hasConflict_agree (t : RevTree)
    (hsorted : List.Pairwise (fun a b => RevNode.compare a b ≤ 0) t.nodes) :
    hasConflict {t with sorted := true} = hasConflict {t with sorted := false} := by
  rcases hn : t.nodes with _ | ⟨n0, _ | ⟨n1, rest⟩⟩
  · simp [hasConflict, hn]
  · simp [hasConflict, hn]
  · rw [hn] at hsorted
    have hp01 : RevNode.compare n0 n1 ≤ 0 :=
      (List.pairwise_cons.mp hsorted).1 n1 (by simp)
    have hp1rest : ∀ x ∈ rest, RevNode.compare n1 x ≤ 0 :=
      (List.pairwise_cons.mp (List.pairwise_cons.mp hsorted).2).1
    simp only [hasConflict, hn, if_true, if_false]
    cases hact : isActive n1 with
    | true =>
      have hn0 : isActive n0 = true := by
        by_contra hc
        have hc' : isActive n0 = false := by simpa using hc
        have h1 := compare_inactive_active hact hc'
        omega
      have hs : scanConflict 0 (n0 :: n1 :: rest) = true := by
        rw [scanConflict_iff]
        refine ⟨?_, ?_⟩ <;> simp [List.countP_cons, hn0, hact]
      simp [hs]
    | false =>
      have hbound : (n0 :: n1 :: rest).countP isActive ≤ rest.countP isActive + 1 := by
        by_cases hn0 : isActive n0 = true <;>
          simp [List.countP_cons, hact, hn0]
      have hs : ¬ scanConflict 0 (n0 :: n1 :: rest) = true := by
        rw [scanConflict_iff]
        rintro ⟨-, h2⟩
        have hrest : 0 < rest.countP isActive := by omega
        obtain ⟨x, hx, hxact⟩ := List.countP_pos_iff.mp hrest
        have hcmp := compare_inactive_active hxact hact
        have hle := hp1rest x hx
        omega
      have hs' : scanConflict 0 (n0 :: n1 :: rest) = false := by simpa using hs
      simp [hs']

/-- Witness for C8: the two hasConflict paths agree on a concrete sorted
two-node tree. -/
theorem C8_hasConflict_agree_witness :
    hasConflict {sortedPairTree with sorted := true} =
      hasConflict {sortedPairTree with sorted := false} :=
  C8_hasConflict_agree sortedPairTree (by decide)

/-- Byte-lexicographic comparison is antisymmetric. -/
theorem compareBytes_neg : ∀ a b : List Nat, compareBytes a b = -compareBytes b a := by
  intro a
  induction a with
  | nil => intro b; cases b <;> simp [compareBytes]
  | cons x xs ih =>
    intro b
    cases b with
    | nil => simp [compareBytes]
    | cons y ys =>
      simp only [compareBytes]
      rcases Nat.lt_trichotomy x y with h | h | h
      · simp [h, Nat.lt_asymm h]
      · subst h
        simp [Nat.lt_irrefl]
        exact ih ys
      · simp [h, Nat.lt_asymm h]

/-- Byte-lexicographic comparison only takes the values -1, 0 and 1. -/
theorem compareBytes_sign : ∀ a b : List Nat,
    compareBytes a b = -1 ∨ compareBytes a b = 0 ∨ compareBytes a b = 1 := by
  intro a
  induction a with
  | nil => intro b; cases b <;> simp [compareBytes]
  | cons x xs ih =>
    intro b
    cases b with
    | nil => simp [compareBytes]
    | cons y ys =>
      simp only [compareBytes]
      split_ifs
      · simp
      · simp
      · exact ih ys

/-- Byte-lexicographic comparison is transitive on the non-positive
side. -/
theorem compareBytes_trans_le : ∀ a b c : List Nat,
    compareBytes a b ≤ 0 → compareBytes b c ≤ 0 → compareBytes a c ≤ 0 := by
  intro a
  induction a with
  | nil =>
    intro b c _ _
    cases c <;> simp [compareBytes]
  | cons x xs ih =>
    intro b c h1 h2
    cases b with
    | nil => simp [compareBytes] at h1
    | cons y ys =>
      cases c with
      | nil => simp [compareBytes] at h2
      | cons z zs =>
        simp only [compareBytes] at h1 h2 ⊢
        split_ifs at h1 h2 ⊢ <;> first | omega | exact ih ys zs h1 h2

/-- compareRevIDs is antisymmetric on all byte strings. -/
theorem compareRevIDs_antisymm : ∀ a b : List Nat,
    compareRevIDs a b = -compareRevIDs b a := by
  intro a b
  unfold compareRevIDs
  rcases h1 : RevIDParse a with _ | ⟨g1, d1⟩ <;>
    rcases h2 : RevIDParse b with _ | ⟨g2, d2⟩ <;>
      simp only []
  · exact compareBytes_neg a b
  · exact compareBytes_neg a b
  · exact compareBytes_neg a b
  · split_ifs <;> first | omega | exact compareBytes_neg d1 d2

/-- compareRevIDs only takes the values -1, 0 and 1. -/
theorem compareRevIDs_sign : ∀ a b : List Nat,
    compareRevIDs a b = -1 ∨ compareRevIDs a b = 0 ∨ compareRevIDs a b = 1 := by
  intro a b
  unfold compareRevIDs
  rcases h1 : RevIDParse a with _ | ⟨g1, d1⟩ <;>
    rcases h2 : RevIDParse b with _ | ⟨g2, d2⟩ <;>
      simp only []
  · exact compareBytes_sign a b
  · exact compareBytes_sign a b
  · exact compareBytes_sign a b
  · split_ifs <;> first | simp | exact compareBytes_sign d1 d2

/-- compareRevIDs is transitive among IDs that all parse. -/
theorem compareRevIDs_trans_parsed : ∀ a b c : List Nat,
    (RevIDParse a).isSome = true → (RevIDParse b).isSome = true →
    (RevIDParse c).isSome = true →
    compareRevIDs a b ≤ 0 → compareRevIDs b c ≤ 0 → compareRevIDs a c ≤ 0 := by
  intro a b c ha hb hc h1 h2
  rcases hA : RevIDParse a with _ | ⟨g1, d1⟩
  · rw [hA] at ha; simp at ha
  rcases hB : RevIDParse b with _ | ⟨g2, d2⟩
  · rw [hB] at hb; simp at hb
  rcases hC : RevIDParse c with _ | ⟨g3, d3⟩
  · rw [hC] at hc; simp at hc
  unfold compareRevIDs at h1 h2 ⊢
  rw [hA, hB] at h1
  rw [hB, hC] at h2
  rw [hA, hC]
  simp only [] at h1 h2 ⊢
  split_ifs at h1 h2 ⊢ <;> first | omega | exact compareBytes_trans_le d1 d2 d3 h1 h2

/-- compareRevIDs is transitive among IDs that all fail to parse. -/
theorem compareRevIDs_trans_unparsed : ∀ a b c : List Nat,
    RevIDParse a = none → RevIDParse b = none → RevIDParse c = none →
    compareRevIDs a b ≤ 0 → compareRevIDs b c ≤ 0 → compareRevIDs a c ≤ 0 := by
  intro a b c ha hb hc h1 h2
  unfold compareRevIDs at h1 h2 ⊢
  rw [ha, hb] at h1
  rw [hb, hc] at h2
  rw [ha, hc]
  exact compareBytes_trans_le a b c h1 h2

/-- Claim C9 as amended: compareRevIDs is antisymmetric and its value
always lies in -1, 0, +1, and the induced order is transitive among IDs
that all parse and among IDs that all fail to parse; transitivity does
not hold for mixed triples (see the counterexample). -/
theorem C9_compare_properties :
    (∀ a b : List Nat, compareRevIDs a b = -compareRevIDs b a) ∧
    (∀ a b : List Nat,
      compareRevIDs a b = -1 ∨ compareRevIDs a b = 0 ∨ compareRevIDs a b = 1) ∧
    (∀ a b c : List Nat,
      (RevIDParse a).isSome = true → (RevIDParse b).isSome = true →
      (RevIDParse c).isSome = true →
      compareRevIDs a b ≤ 0 → compareRevIDs b c ≤ 0 → compareRevIDs a c ≤ 0) ∧
    (∀ a b c : List Nat,
      RevIDParse a = none → RevIDParse b = none → RevIDParse c = none →
      compareRevIDs a b ≤ 0 → compareRevIDs b c ≤ 0 → compareRevIDs a c ≤ 0) :=
  ⟨compareRevIDs_antisymm, compareRevIDs_sign,
   compareRevIDs_trans_parsed, compareRevIDs_trans_unparsed⟩

/-- Witness for C9: the amended properties applied at concrete inputs,
with the parse hypotheses discharged. -/
theorem C9_compare_properties_witness :
    compareRevIDs rev1aa rev2bb = -compareRevIDs rev2bb rev1aa ∧
    compareRevIDs rev1aa rev3cc ≤ 0 ∧
    compareRevIDs [97] [99] ≤ 0 :=
  ⟨C9_compare_properties.1 rev1aa rev2bb,
   C9_compare_properties.2.2.1 rev1aa rev2bb rev3cc
     (by decide) (by decide) (by decide) (by decide) (by decide),
   C9_compare_properties.2.2.2 [97] [98] [99]
     (by decide) (by decide) (by decide) (by decide) (by decide)⟩

theorem putUVarIntAux_irrel : ∀ fuel n fuel', n < fuel → n < fuel' →
    putUVarIntAux fuel n = putUVarIntAux fuel' n := by
  intro fuel
  induction fuel with
  | zero => intro n fuel' h; omega
  | succ fuel ih =>
    intro n fuel' h h'
    cases fuel' with
    | zero => omega
    | succ fuel' =>
      by_cases h128 : n < 128
      · simp [putUVarIntAux, h128]
      · simp only [putUVarIntAux, h128, if_false]
        have hdiv : n / 128 < n := Nat.div_lt_self (by omega) (by omega)
        rw [ih (n / 128) fuel' (by omega) (by omega)]

theorem putUVarInt_eq (n : Nat) : putUVarInt n =
    if n < 128 then [n] else (n % 128 + 128) :: putUVarInt (n / 128) := by
  by_cases h : n < 128
  · simp [putUVarInt, putUVarIntAux, h]
  · rw [if_neg h]
    have hdiv : n / 128 < n := Nat.div_lt_self (by omega) (by omega)
    have h1 : putUVarInt n = (n % 128 + 128) :: putUVarIntAux n (n / 128) := by
      simp [putUVarInt, putUVarIntAux, h]
    rw [h1]
    congr 1
    exact putUVarIntAux_irrel n (n / 128) (n / 128 + 1) hdiv (by omega)

theorem sizeOfVarInt_pos (n : Nat) : 1 ≤ sizeOfVarInt n := by
  unfold sizeOfVarInt
  rw [putUVarInt_eq]
  split_ifs <;> simp

theorem getUVarInt_put (n : Nat) : ∀ rest : List Nat,
    getUVarInt (putUVarInt n ++ rest) = (sizeOfVarInt n, some n) := by
  induction n using Nat.strong_induction_on with
  | _ n ih =>
    intro rest
    rw [show sizeOfVarInt n = (putUVarInt n).length from rfl]
    rw [putUVarInt_eq n]
    by_cases h : n < 128
    · simp [h, getUVarInt]
    · simp only [h, if_false, List.cons_append, getUVarInt]
      have hb : ¬ (n % 128 + 128 < 128) := by omega
      rw [if_neg hb]
      have hdiv : n / 128 < n := Nat.div_lt_self (by omega) (by omega)
      have hrec := ih (n / 128) hdiv rest
      rw [show sizeOfVarInt (n / 128) = (putUVarInt (n / 128)).length from rfl] at hrec
      rw [hrec]
      simp only [List.length_cons]
      have hv : (n % 128 + 128) % 128 + 128 * (n / 128) = n := by omega
      rw [hv]

theorem encNode_cons (bo : Nat) (n : RevNode) :
    encNode bo n =
      (sizeForRawNode n) / 16777216 % 256 :: (sizeForRawNode n) / 65536 % 256 ::
      (sizeForRawNode n) / 256 % 256 :: (sizeForRawNode n) % 256 ::
      n.parentIndex / 256 % 256 :: n.parentIndex % 256 ::
      flagsByte n :: n.revID.length % 256 ::
      (n.revID ++ (putUVarInt n.sequence ++ nodePayload bo n)) := by
  simp [encNode, write4BE, write2BE]

theorem encNode_length (bo : Nat) (n : RevNode) :
    (encNode bo n).length = sizeForRawNode n := by
  rw [encNode_cons]
  simp only [List.length_cons, List.length_append]
  unfold sizeForRawNode nodePayload
  by_cases h1 : n.data.length > 0
  · simp [h1, sizeOfVarInt]
    omega
  · by_cases h2 : n.oldBodyOffset > 0
    · have h3 : n.oldBodyOffset ≠ 0 := by omega
      simp [h1, h2, h3, sizeOfVarInt]
      omega
    · simp [h1, h2, sizeOfVarInt]
      omega

theorem flagsByte_bits (n : RevNode) :
    (flagsByte n).testBit 0 = n.flags.leaf ∧
    (flagsByte n).testBit 1 = n.flags.deleted ∧
    (flagsByte n).testBit 7 = decide (n.data.length > 0) ∧
    (flagsByte n).testBit 6 =
      (!decide (n.data.length > 0) && decide (n.oldBodyOffset > 0)) := by
  unfold flagsByte
  rcases hl : n.flags.leaf <;> rcases hd : n.flags.deleted <;>
    by_cases h1 : n.data.length > 0 <;> by_cases h2 : n.oldBodyOffset > 0 <;>
      simp [h1, h2] <;> decide

theorem parseRecord_encNode (bo : Nat) (n : RevNode) (hrev : n.revID.length ≤ 255) :
    parseRecord (encNode bo n) = some (cleanNode n) := by
  have hmod : n.revID.length % 256 = n.revID.length := Nat.mod_eq_of_lt (by omega)
  have hp : n.parentIndex / 256 % 256 * 256 + n.parentIndex % 256 =
      n.parentIndex % 65536 := by omega
  rw [encNode_cons]
  simp only [parseRecord]
  rw [hmod]
  rw [if_pos (by simp)]
  rw [List.take_left, List.drop_left]
  rw [getUVarInt_put]
  simp only []
  rw [show sizeOfVarInt n.sequence = (putUVarInt n.sequence).length from rfl,
      List.drop_left]
  obtain ⟨hb0, hb1, hb7, hb6⟩ := flagsByte_bits n
  rw [hb0, hb1, hb7, hb6]
  by_cases h1 : n.data.length > 0
  · rw [if_pos (show decide (n.data.length > 0) = true by simp [h1])]
    unfold nodePayload cleanNode
    rw [if_pos h1, if_pos h1]
    simp [RevNode.mk.injEq, hp]
  · rw [if_neg (show ¬ decide (n.data.length > 0) = true by simp [h1])]
    by_cases h2 : n.oldBodyOffset > 0
    · rw [if_pos (show (!decide (n.data.length > 0) &&
          decide (n.oldBodyOffset > 0)) = true by simp [h1, h2])]
      have hdata : n.data = [] := List.length_eq_zero.mp (by omega)
      have hoff : n.oldBodyOffset ≠ 0 := by omega
      unfold nodePayload cleanNode
      rw [if_neg h1, if_pos h2, if_pos hoff, if_neg h1]
      have hget := getUVarInt_put n.oldBodyOffset []
      rw [List.append_nil] at hget
      rw [hget]
      simp [RevNode.mk.injEq, hp, hdata]
    · rw [if_neg (show ¬ (!decide (n.data.length > 0) &&
          decide (n.oldBodyOffset > 0)) = true by simp [h2])]
      have hdata : n.data = [] := List.length_eq_zero.mp (by omega)
      have hoff : n.oldBodyOffset = 0 := by omega
      unfold cleanNode
      rw [if_neg h1]
      simp [RevNode.mk.injEq, hp, hdata, hoff]

theorem sizeForRawNode_ne_zero (n : RevNode) : sizeForRawNode n ≠ 0 := by
  unfold sizeForRawNode
  omega

theorem rawWalk_encNode_step (bo fuel : Nat) (n : RevNode) (rest : List Nat)
    (hs : sizeForRawNode n < 4294967296) :
    rawWalk (fuel + 1) (encNode bo n ++ rest) =
      match rawWalk fuel rest with
      | none => none
      | some (recs, suffix) => some (encNode bo n :: recs, suffix) := by
  have htake : (encNode bo n ++ rest).take (sizeForRawNode n) = encNode bo n := by
    rw [← encNode_length bo n]; exact List.take_left _ _
  have hdrop : (encNode bo n ++ rest).drop (sizeForRawNode n) = rest := by
    rw [← encNode_length bo n]; exact List.drop_left _ _
  have hcons : encNode bo n ++ rest =
      sizeForRawNode n / 16777216 % 256 :: sizeForRawNode n / 65536 % 256 ::
      sizeForRawNode n / 256 % 256 :: sizeForRawNode n % 256 ::
      n.parentIndex / 256 % 256 :: n.parentIndex % 256 ::
      flagsByte n :: n.revID.length % 256 ::
      ((n.revID ++ (putUVarInt n.sequence ++ nodePayload bo n)) ++ rest) := by
    rw [encNode_cons]
    simp [List.cons_append]
  have hv : ((sizeForRawNode n / 16777216 % 256 * 256 + sizeForRawNode n / 65536 % 256) *
        256 + sizeForRawNode n / 256 % 256) * 256 + sizeForRawNode n % 256
      = sizeForRawNode n := by omega
  rw [hcons]
  simp only [rawWalk]
  rw [hv]
  rw [if_neg (sizeForRawNode_ne_zero n)]
  rw [← hcons]
  rw [htake, hdrop]

theorem rawWalk_encList (bo : Nat) : ∀ (ns : List RevNode) (fuel : Nat),
    (∀ n ∈ ns, sizeForRawNode n < 4294967296) → ns.length < fuel →
    rawWalk fuel (encList bo ns ++ write4BE 0) =
      some (ns.map (encNode bo), write4BE 0) := by
  intro ns
  induction ns with
  | nil =>
    intro fuel _ hf
    cases fuel with
    | zero => omega
    | succ fuel => simp [encList, rawWalk, write4BE]
  | cons n ns ih =>
    intro fuel hsz hf
    cases fuel with
    | zero => omega
    | succ fuel =>
      have hstep : encList bo (n :: ns) ++ write4BE 0 =
          encNode bo n ++ (encList bo ns ++ write4BE 0) := by
        simp [encList]
      rw [hstep]
      rw [rawWalk_encNode_step bo fuel n _ (hsz n (by simp))]
      rw [ih fuel (fun m hm => hsz m (by simp [hm])) (by simp at hf; omega)]
      simp

theorem parseRecords_encNodes (bo : Nat) : ∀ ns : List RevNode,
    (∀ n ∈ ns, n.revID.length ≤ 255) →
    parseRecords (ns.map (encNode bo)) = some (ns.map cleanNode) := by
  intro ns
  induction ns with
  | nil => intro _; simp [parseRecords]
  | cons n ns ih =>
    intro h
    simp only [List.map_cons, parseRecords]
    rw [parseRecord_encNode bo n (h n (by simp))]
    rw [ih (fun m hm => h m (by simp [hm]))]

theorem substSeq_zero (n : RevNode) : substSeq 0 n = n := by
  unfold substSeq
  split_ifs with h
  · cases n with
    | mk revID parentIndex flags sequence data oldBodyOffset =>
      simp at h
      simp [h]
  · rfl

theorem encList_length_ge (bo : Nat) : ∀ ns : List RevNode,
    ns.length ≤ (encList bo ns).length := by
  intro ns
  induction ns with
  | nil => simp [encList]
  | cons n ns ih =>
    have h1 : encList bo (n :: ns) = encNode bo n ++ encList bo ns := by simp [encList]
    rw [h1]
    simp only [List.length_cons, List.length_append]
    have h2 := encNode_length bo n
    have h3 := sizeForRawNode_ne_zero n
    omega

theorem decode_encList (bo : Nat) (ns : List RevNode)
    (hcount : ns.length ≤ 65535)
    (hrev : ∀ n ∈ ns, n.revID.length ≤ 255)
    (hsize : ∀ n ∈ ns, sizeForRawNode n < 4294967296) :
    decodeTree (encList bo ns ++ write4BE 0) 0 0 =
      DecodeResult.ok ⟨ns.map cleanNode, 0, true, false⟩ := by
  unfold decodeTree
  have hfuel : ns.length < (encList bo ns ++ write4BE 0).length + 1 := by
    have := encList_length_ge bo ns
    simp only [List.length_append]
    omega
  have hmap : (ns.map cleanNode).map (substSeq 0) = ns.map cleanNode := by
    have h : substSeq 0 = id := funext substSeq_zero
    rw [h, List.map_id]
  simp only [rawWalk_encList bo ns _ hsize hfuel, List.length_map,
    parseRecords_encNodes bo ns hrev, hmap]
  rw [if_neg (show ¬ ns.length > 65535 by omega)]
  rw [if_neg (show ¬ (write4BE 0).length ≠ 4 by simp [write4BE])]

theorem sizeForRawNode_clean (n : RevNode) :
    sizeForRawNode (cleanNode n) = sizeForRawNode n := by
  unfold cleanNode sizeForRawNode
  by_cases h : n.data.length > 0 <;> simp [h]

theorem flagsByte_clean (n : RevNode) : flagsByte (cleanNode n) = flagsByte n := by
  unfold cleanNode flagsByte
  by_cases h : n.data.length > 0 <;> simp [h]

theorem write2BE_mod (p : Nat) : write2BE (p % 65536) = write2BE p := by
  simp only [write2BE, List.cons.injEq, and_true]
  omega

theorem nodePayload_clean (bo bo' : Nat) (n : RevNode) :
    nodePayload bo' (cleanNode n) = nodePayload bo n := by
  unfold cleanNode nodePayload
  by_cases h1 : n.data.length > 0
  · simp [h1]
  · by_cases h2 : n.oldBodyOffset > 0
    · have h3 : n.oldBodyOffset ≠ 0 := by omega
      simp [h1, h2, h3]
    · simp [h1, h2]

theorem encNode_clean (bo' bo : Nat) (n : RevNode) :
    encNode bo' (cleanNode n) = encNode bo n := by
  unfold encNode
  rw [sizeForRawNode_clean, flagsByte_clean, nodePayload_clean bo bo' n]
  rw [show (cleanNode n).parentIndex = n.parentIndex % 65536 from rfl]
  rw [write2BE_mod]
  rfl

theorem pruneBodies_id (bo : Nat) : ∀ ns : List RevNode,
    (∀ n ∈ ns, n.data ≠ [] → n.flags.leaf = true) → pruneBodies bo ns = ns := by
  intro ns
  induction ns with
  | nil => intro _; rfl
  | cons n ns ih =>
    intro h
    have htail := ih (fun m hm => h m (by simp [hm]))
    by_cases hd : n.data.length > 0
    · have hne : n.data ≠ [] := by
        intro hc
        rw [hc] at hd
        simp at hd
      have hl := h n (by simp) hne
      simp [pruneBodies, hd, hl] at htail ⊢
      exact htail
    · simp [pruneBodies, hd] at htail ⊢
      exact htail

theorem mem_insertSorted {x a : RevNode} : ∀ {l : List RevNode},
    x ∈ insertSorted a l → x = a ∨ x ∈ l := by
  intro l
  induction l with
  | nil =>
    intro h
    simp [insertSorted] at h
    exact Or.inl h
  | cons y ys ih =>
    intro h
    simp only [insertSorted] at h
    split_ifs at h
    · rcases List.mem_cons.mp h with h | h
      · exact Or.inl h
      · exact Or.inr h
    · rcases List.mem_cons.mp h with h | h
      · exact Or.inr (by simp [h])
      · rcases ih h with h | h
        · exact Or.inl h
        · exact Or.inr (by simp [h])

theorem mem_sortNodes {x : RevNode} : ∀ {l : List RevNode},
    x ∈ sortNodes l → x ∈ l := by
  intro l
  induction l with
  | nil => intro h; simp [sortNodes] at h
  | cons y ys ih =>
    intro h
    simp only [sortNodes] at h
    rcases mem_insertSorted h with h | h
    · simp [h]
    · exact List.mem_cons_of_mem y (ih h)

theorem insertSorted_length (a : RevNode) : ∀ l : List RevNode,
    (insertSorted a l).length = l.length + 1 := by
  intro l
  induction l with
  | nil => rfl
  | cons y ys ih =>
    simp only [insertSorted]
    split_ifs <;> simp [ih]

theorem sortNodes_length : ∀ l : List RevNode, (sortNodes l).length = l.length := by
  intro l
  induction l with
  | nil => rfl
  | cons y ys ih => simp [sortNodes, insertSorted_length, ih]

theorem mem_stashParents {n' : RevNode} : ∀ (i : Nat) (ns : List RevNode),
    n' ∈ stashParents i ns → ∃ n ∈ ns, ∃ p, n' = {n with parentIndex := p} := by
  intro i ns
  induction ns generalizing i with
  | nil => intro h; simp [stashParents] at h
  | cons m ms ih =>
    intro h
    simp only [stashParents] at h
    rcases List.mem_cons.mp h with h | h
    · exact ⟨m, by simp, i % 65536, h⟩
    · obtain ⟨n, hn, p, hp⟩ := ih (i + 1) h
      exact ⟨n, by simp [hn], p, hp⟩

theorem stashParents_length : ∀ (i : Nat) (ns : List RevNode),
    (stashParents i ns).length = ns.length := by
  intro i ns
  induction ns generalizing i with
  | nil => rfl
  | cons m ms ih => simp [stashParents, ih]

theorem mapOptionAll_length {A B : Type} (f : A → Option B) : ∀ (l : List A)
    (l' : List B), mapOptionAll f l = some l' → l'.length = l.length := by
  intro l
  induction l with
  | nil => intro l' h; simp [mapOptionAll] at h; simp [← h]
  | cons x xs ih =>
    intro l' h
    simp only [mapOptionAll] at h
    rcases hx : f x with _ | y <;> rw [hx] at h
    · simp at h
    · rcases hxs : mapOptionAll f xs with _ | ys <;> rw [hxs] at h
      · simp at h
      · simp at h
        rw [← h]
        simp [ih ys hxs]

theorem mapOptionAll_mem {A B : Type} (f : A → Option B) : ∀ (l : List A)
    (l' : List B), mapOptionAll f l = some l' →
    ∀ y ∈ l', ∃ x ∈ l, f x = some y := by
  intro l
  induction l with
  | nil =>
    intro l' h y hy
    simp [mapOptionAll] at h
    subst h
    simp at hy
  | cons x xs ih =>
    intro l' h y hy
    simp only [mapOptionAll] at h
    rcases hx : f x with _ | z <;> rw [hx] at h
    · simp at h
    · rcases hxs : mapOptionAll f xs with _ | zs <;> rw [hxs] at h
      · simp at h
      · simp at h
        rw [← h] at hy
        rcases List.mem_cons.mp hy with hy | hy
        · exact ⟨x, by simp, by rw [hx, hy]⟩
        · obtain ⟨x', hx', hfx'⟩ := ih zs hxs y hy
          exact ⟨x', by simp [hx'], hfx'⟩

theorem fixupNode_shape {op : List Nat} {ns2 : List RevNode} {n n' : RevNode}
    (h : fixupNode op ns2 n = some n') :
    ∃ p, n' = {n with parentIndex := p} := by
  unfold fixupNode at h
  rcases h1 : op[n.parentIndex]? with _ | par <;> rw [h1] at h
  · simp at h
  · dsimp only [] at h
    split_ifs at h
    · rcases h2 : ns2.findIdx? (fun m => m.parentIndex == par) with _ | i <;>
        rw [h2] at h
      · simp at h
      · simp at h
        exact ⟨i, h.symm⟩
    · simp at h
      exact ⟨par, h.symm⟩

theorem sortFix_length {ns ns' : List RevNode} (h : sortFix ns = some ns') :
    ns'.length = ns.length := by
  unfold sortFix at h
  have h1 := mapOptionAll_length _ _ _ h
  rw [h1, sortNodes_length, stashParents_length]

theorem sortFix_core {ns ns' : List RevNode} (h : sortFix ns = some ns') :
    ∀ n' ∈ ns', ∃ n ∈ ns, ∃ p, n' = {n with parentIndex := p} := by
  intro n' hmem
  unfold sortFix at h
  obtain ⟨x, hx, hfx⟩ := mapOptionAll_mem _ _ _ h n' hmem
  obtain ⟨p1, hp1⟩ := fixupNode_shape hfx
  obtain ⟨n, hn, p0, hp0⟩ := mem_stashParents 0 ns (mem_sortNodes hx)
  refine ⟨n, hn, p1, ?_⟩
  rw [hp1, hp0]

/-- Claim C4 as amended: encode(decode(b)) == b byte-for-byte for every
blob b produced by encode from a tree in which every node carrying an
inline body is flagged Leaf (so that the body-pruning pass is already
settled), the node count is at most 65535, revision IDs fit the length
byte, record sizes fit the 32-bit size field, and decode uses default
sequence 0. Blobs from trees with a bodied New non-leaf node are excluded
(see the counterexample). -/
theorem C4_roundtrip_canonical (t : RevTree) (b : List Nat)
    (hcount : t.nodes.length ≤ 65535)
    (hrev : ∀ n ∈ t.nodes, n.revID.length ≤ 255)
    (hsize : ∀ n ∈ t.nodes, sizeForRawNode n < 4294967296)
    (hleaf : ∀ n ∈ t.nodes, n.data ≠ [] → n.flags.leaf = true)
    (henc : encodeTree t = some b) :
    reencode b = some b := by
  unfold encodeTree at henc
  rcases hopt : (if t.sorted then some t.nodes else sortFix t.nodes) with _ | ns0 <;>
    rw [hopt] at henc
  · simp at henc
  · have hshape : ∀ n' ∈ ns0, ∃ n ∈ t.nodes, ∃ p, n' = {n with parentIndex := p} := by
      by_cases hs : t.sorted
      · rw [if_pos hs] at hopt
        intro n' hm
        have heq : t.nodes = ns0 := by simpa using hopt
        exact ⟨n', heq ▸ hm, n'.parentIndex, rfl⟩
      · rw [if_neg hs] at hopt
        exact sortFix_core hopt
    have hlen0 : ns0.length = t.nodes.length := by
      by_cases hs : t.sorted
      · rw [if_pos hs] at hopt
        have heq : t.nodes = ns0 := by simpa using hopt
        rw [heq]
      · rw [if_neg hs] at hopt
        exact sortFix_length hopt
    have hrev0 : ∀ n ∈ ns0, n.revID.length ≤ 255 := by
      intro n' hm
      obtain ⟨n, hn, p, rfl⟩ := hshape n' hm
      exact hrev n hn
    have hsize0 : ∀ n ∈ ns0, sizeForRawNode n < 4294967296 := by
      intro n' hm
      obtain ⟨n, hn, p, rfl⟩ := hshape n' hm
      exact hsize n hn
    have hleaf0 : ∀ n ∈ ns0, n.data ≠ [] → n.flags.leaf = true := by
      intro n' hm
      obtain ⟨n, hn, p, rfl⟩ := hshape n' hm
      exact hleaf n hn
    dsimp only [] at henc
    rw [pruneBodies_id t.bodyOffset ns0 hleaf0] at henc
    have hb : b = encList t.bodyOffset ns0 ++ write4BE 0 := by
      have := henc.symm
      simpa [encList] using this
    subst hb
    unfold reencode
    rw [decode_encList t.bodyOffset ns0 (by omega) hrev0 hsize0]
    unfold encodeTree
    dsimp only []
    rw [if_pos rfl]
    dsimp only []
    have hleafc : ∀ m ∈ ns0.map cleanNode, m.data ≠ [] → m.flags.leaf = true := by
      intro m hm
      obtain ⟨n', hmem, rfl⟩ := List.mem_map.mp hm
      exact hleaf0 n' hmem
    rw [pruneBodies_id 0 (ns0.map cleanNode) hleafc]
    have hfun : (ns0.map cleanNode).map (encNode 0) = ns0.map (encNode t.bodyOffset) := by
      rw [List.map_map]
      have h : encNode 0 ∘ cleanNode = encNode t.bodyOffset :=
        funext fun n => encNode_clean 0 t.bodyOffset n
      rw [h]
    rw [hfun]
    simp [encList]

/-- Witness for C4: the round trip applied to the encoding of a concrete
saved single-leaf tree with an inline body. -/
theorem C4_roundtrip_canonical_witness :
    reencode ((encodeTree leafBodyTree).getD []) =
      some ((encodeTree leafBodyTree).getD []) :=
  C4_roundtrip_canonical leafBodyTree ((encodeTree leafBodyTree).getD [])
    (by decide) (by decide) (by decide) (by decide) (by decide)
